import Mathlib

/-!
Verification of the condition-to-SQL compiler, DAO operations, entity
lifecycle and transaction coordinator of a typed ORM/DAO layer.

The JavaScript/TypeScript source is shallowly embedded: JS runtime values
are modelled by `JSVal`, prepared-statement parameter lists by
`List JSVal`, and each operation of the source becomes a Lean function
threading its state explicitly.  External runtime builtins used by the
source (`JSON.stringify`, `JSON.parse`, `Date` formatting/parsing) are
modelled by executable Lean functions faithful to their documented
behaviour on the inputs the source feeds them.
-/

namespace OrmDao

/-- Model of a JavaScript runtime value as far as the ORM layer observes
it: primitives, `null`, `undefined`, `Date` objects (by their millisecond
timestamp), Node `Buffer`s, arrays and plain objects (ordered field
lists). -/
inductive JSVal where
  | null
  | undef
  | bool (b : Bool)
  | num (n : Int)
  | str (s : String)
  | jdate (ms : Nat)
  | buf (bytes : List Nat)
  | arr (elems : List JSVal)
  | obj (fields : List (String × JSVal))

/-- A flat record: the shape of raw DB rows, of entity own-field maps and
of `toDBRecord` output (JS objects used as string-keyed maps). -/
abbrev Rec : Type := List (String × JSVal)

/-- JS property access `r[k]` on a record object (first binding wins,
mirroring the fact that a JS object has at most one binding per key). -/
def lookupField (r : Rec) (k : String) : Option JSVal :=
  (r.find? (fun kv => kv.1 == k)).map (fun kv => kv.2)

/-- The JS `in` operator on a record object. -/
def hasKey (r : Rec) (k : String) : Bool :=
  r.any (fun kv => kv.1 == k)

/-- JS truthiness of a value: `false`, `0`, the empty string, `null` and
`undefined` are falsy; objects (arrays, dates, buffers) are truthy. -/
def truthy : JSVal → Bool
  | .null => false
  | .undef => false
  | .bool b => b
  | .num n => !(n == 0)
  | .str s => !(s == "")
  | .jdate _ => true
  | .buf _ => true
  | .arr _ => true
  | .obj _ => true

/-- Model of JavaScript `Array.prototype.join(sep)`: elements concatenated
with the separator between consecutive elements. -/
def joinClauses (sep : String) : List String → String
  | [] => ""
  | [s] => s
  | s :: rest => s ++ sep ++ joinClauses sep rest

/-- The `WhereOperator` union type of `utils/types.ts`:
`"=" | "!=" | ">" | "<" | ">=" | "<=" | "LIKE" | "IN" | "IS"`. -/
inductive WhereOp where
  | eq | ne | gt | lt | ge | le | like | inOp | isOp
deriving DecidableEq

/-- The SQL text of a `WhereOp`, exactly the string literal of the source. -/
def WhereOp.toStr : WhereOp → String
  | .eq => "="
  | .ne => "!="
  | .gt => ">"
  | .lt => "<"
  | .ge => ">="
  | .le => "<="
  | .like => "LIKE"
  | .inOp => "IN"
  | .isOp => "IS"

/-- The logical connectors of a `WhereComposite`: `"AND" | "OR"`. -/
inductive Connector where
  | and | or
deriving DecidableEq

/-- The SQL text of a `Connector`. -/
def Connector.toStr : Connector → String
  | .and => "AND"
  | .or => "OR"

/-- The `Where` condition-tree type of `utils/types.ts`: either a single
`WhereCondition` `{field, operator?, value}` or a `WhereComposite`
`{connectors, prepositions}`.  The optional operator mirrors
`operator?: WhereOperator`. -/
inductive Where where
  | cond (field : String) (op : Option WhereOp) (value : JSVal)
  | comp (connectors : Connector) (prepositions : List Where)

mutual

/-- `GenericDAO.buildWhereClause(where, params, EntityName = this.entityName)`.
`dao` is `this.entityName`; `en` is the `EntityName` argument of the call.
The mutated `params` array is threaded explicitly; the result is the SQL
fragment paired with the updated parameter list.  Note that the recursive
call of the source for a composite node is
`this.buildWhereClause(prep, params)` — the `EntityName` argument is not
passed on, so children are compiled with the default `this.entityName`. -/
def buildWhereClause (dao : String) (w : Where) (params : List JSVal)
    (en : String) : String × List JSVal :=
  match w with
  | .comp conn preps =>
    let r := buildWhereList dao preps params
    ("(" ++ joinClauses (" " ++ conn.toStr ++ " ") r.1 ++ ")", r.2)
  | .cond field op value =>
    let operatorStr := (op.getD .eq).toStr
    let frag :=
      if op.getD .eq ≠ .inOp then "??.?? " ++ operatorStr ++ " ?"
      else "??.?? " ++ operatorStr ++ " (?)"
    (frag, params ++ [.str en, .str field, value])

/-- The `where.prepositions.map((prep) => this.buildWhereClause(prep, params))`
loop: the `params` array is pushed to left-to-right across the map, and
each recursive call uses the default `EntityName` (`this.entityName`). -/
def buildWhereList (dao : String) (ws : List Where) (params : List JSVal) :
    List String × List JSVal :=
  match ws with
  | [] => ([], params)
  | w :: rest =>
    let r1 := buildWhereClause dao w params dao
    let r2 := buildWhereList dao rest r1.2
    (r1.1 :: r2.1, r2.2)

end

/-- Number of mysql2 placeholders in an SQL fragment: scanning left to
right, `??` (identifier placeholder) counts as one and a lone `?` (value
placeholder) counts as one. -/
def countPh : List Char → Nat
  | [] => 0
  | '?' :: '?' :: rest => 1 + countPh rest
  | '?' :: rest => 1 + countPh rest
  | _ :: rest => countPh rest

/-- Placeholder count of a fragment string. -/
def countPlaceholders (s : String) : Nat := countPh s.data

mutual

/-- The parameters a condition tree contributes, in the order the source
pushes them: a comparison pushes the qualifying table name, the field and
the value; a composite accumulates its children pre-order, left to right,
each child qualified with the DAO's own table. -/
def whereParams (dao : String) (w : Where) (en : String) : List JSVal :=
  match w with
  | .comp _ preps => whereParamsList dao preps
  | .cond field _ value => [.str en, .str field, value]

/-- Parameter accumulation across a composite's children. -/
def whereParamsList (dao : String) (ws : List Where) : List JSVal :=
  match ws with
  | [] => []
  | w :: rest => whereParams dao w dao ++ whereParamsList dao rest

end

/-- The argument bundle a call to `selectWhere(where, options)` receives.
`J` and `O` stand for the join descriptors and orderings, which
`selectAllPaginated` forwards unchanged from its own options. -/
structure SelectWhereCall (J O : Type) where
  whereArg : Where
  limit : Option Int
  offset : Option Int
  joins : J
  orderBy : O

/-- `GenericDAO.selectAllPaginated(page, offset, options)` (the second
parameter, named `offset` in the source, is the page size): returns
`this.selectWhere({field:"id", value:0, operator:">"},
{limit: offset, offset: (page-1)*offset, joins, orderBy})`.  The model
captures the argument bundle of that delegated call. -/
def selectAllPaginated {J O : Type} (page pageSize : Int) (joins : J)
    (orderBy : O) : SelectWhereCall J O :=
  { whereArg := .cond "id" (some .gt) (.num 0)
    limit := some pageSize
    offset := some ((page - 1) * pageSize)
    joins := joins
    orderBy := orderBy }

/-- Steps 6 of `selectWhere`: the `LIMIT`/`OFFSET` tail of the query.
`OFFSET` is only emitted when `LIMIT` is (the source nests the checks). -/
def limitOffsetClause (limit offset : Option Int) : String × List JSVal :=
  match limit with
  | none => ("", [])
  | some l =>
    match offset with
    | none => (" LIMIT ?", [.num l])
    | some o => (" LIMIT ? OFFSET ?", [.num l, .num o])

/-- Outcome of `GenericDAO.selectRandom()` as observable by the caller:
a hydrated entity, `null`, or a raised `TypeError` (JS raises
`TypeError` when the `in` operator is applied to `undefined`). -/
inductive RandResult where
  | entity (r : Rec)
  | nullRes
  | typeError

/-- `GenericDAO.selectRandom()`: runs
`SELECT * FROM ?? ORDER BY RAND() LIMIT 1`, destructures the first row
(`const [result] = ...`), then evaluates
`if ("ID" in result && result["ID"]) return new this.EntityClass(result);
return null;`. On an empty table the destructured `result` is
`undefined`, so `"ID" in result` raises a `TypeError`. -/
def selectRandom (rows : List Rec) : RandResult :=
  match rows.head? with
  | none => .typeError
  | some r =>
    if hasKey r "ID" && truthy ((lookupField r "ID").getD .undef) then
      .entity r
    else
      .nullRes

/-- `GenericDAO.deleteWhere(where)`: first `selectWhere(where)` is awaited
(its result is the `matchingRows` argument here), then
`if (rows && where) { ...DELETE...; return rows; } else { return null; }`.
A JS array — even an empty one — is always truthy, so the test reduces to
whether `where` is supplied.  The returned pair is (result, whether the
`DELETE` statement was executed). -/
def deleteWhere (matchingRows : List Rec) (w : Option Where) :
    Option (List Rec) × Bool :=
  match w with
  | some _ => (some matchingRows, true)
  | none => (none, false)

/-- One `connection.query(sql, params)` round trip issued to the
execution layer. -/
structure QueryCall where
  sql : String
  params : List JSVal

/-- `GenericDAO.upsertAll(entities)` over the already-serialized records
(`entities.map(e => e.toDBRecord())`).  Returns the list of execution-layer
calls made and the returned id list.  The source returns `[]`
unconditionally after a successful query ("we return an empty array to
indicate successful execution without batch ID calculation"); template
literal whitespace is normalized to single spaces here. -/
def upsertAll (tableName : String) (dbRecords : List Rec) :
    List QueryCall × List Int :=
  match dbRecords with
  | [] => ([], [])
  | r0 :: rest =>
    let columns := r0.map (fun kv => kv.1)
    let values := (r0 :: rest).map
      (fun r => columns.map (fun c => (lookupField r c).getD .undef))
    let columnNames := joinClauses ", " columns
    let valuePlaceholders := joinClauses ", "
      (values.map (fun vs => "(" ++ joinClauses ", " (vs.map (fun _ => "?")) ++ ")"))
    let updateClauses := joinClauses ", "
      (columns.map (fun c => "`" ++ c ++ "` = VALUES(`" ++ c ++ "`)"))
    let sql := "INSERT INTO `" ++ tableName ++ "` (" ++ columnNames
      ++ ") VALUES " ++ valuePlaceholders
      ++ " ON DUPLICATE KEY UPDATE " ++ updateClauses
    ([⟨sql, values.flatten⟩], [])

/-- The outcomes of the five connection-level steps `runInTransaction`
performs, supplied by the environment: acquiring the connection,
`beginTransaction`, the `callback`, `commit` and `rollback`.  `ε` is the
type of thrown errors. -/
structure TxEnv (α ε : Type) where
  getConnection : Except ε Unit
  beginTransaction : Except ε Unit
  callback : Except ε α
  commit : Except ε Unit
  rollback : Except ε Unit

/-- Observable outcome of a `runInTransaction` run: the value returned or
error thrown, and how many times `release`, `rollback` and `commit` were
invoked on the connection. -/
structure TxResult (α ε : Type) where
  result : Except ε α
  releases : Nat
  rollbacks : Nat
  commits : Nat

/-- `runInTransaction(pool, callback)`: `connection = null`; in `try`:
acquire, `beginTransaction`, run the callback, `commit`, return; in
`catch`: if a connection was acquired, `rollback` (a rollback failure
replaces the thrown error), then re-throw; in `finally`: if a connection
was acquired, `release` it. -/
def runInTransaction {α ε : Type} (env : TxEnv α ε) : TxResult α ε :=
  match env.getConnection with
  | .error e => ⟨.error e, 0, 0, 0⟩
  | .ok _ =>
    match env.beginTransaction with
    | .error e =>
      match env.rollback with
      | .ok _ => ⟨.error e, 1, 1, 0⟩
      | .error e2 => ⟨.error e2, 1, 1, 0⟩
    | .ok _ =>
      match env.callback with
      | .error e =>
        match env.rollback with
        | .ok _ => ⟨.error e, 1, 1, 0⟩
        | .error e2 => ⟨.error e2, 1, 1, 0⟩
      | .ok a =>
        match env.commit with
        | .error e =>
          match env.rollback with
          | .ok _ => ⟨.error e, 1, 1, 1⟩
          | .error e2 => ⟨.error e2, 1, 1, 1⟩
        | .ok _ => ⟨.ok a, 1, 0, 1⟩


/-! ### Model of the JS `Date` UTC calendar

`entity.model.ts` serializes dates with `toISOString().slice(0,19).replace("T", " ")`
and hydrates them with `new Date(string)`.  Both builtins are modelled
here over millisecond timestamps, following the ECMAScript specification
of UTC time decomposition (`YearFromTime` is characterized as the year
whose start is the largest one not after the instant, months likewise);
parsing is modelled with a UTC runtime and covers the epoch-to-year-9999
range in which `toISOString` uses the fixed-width four-digit year. -/

/-- ECMAScript leap-year predicate. -/
def isLeap (y : Nat) : Bool :=
  (y % 4 == 0 && y % 100 != 0) || y % 400 == 0

/-- Days in a calendar year. -/
def daysInYear (y : Nat) : Nat := if isLeap y then 366 else 365

/-- Month lengths of a year, January first. -/
def monthLengths (y : Nat) : List Nat :=
  [31, if isLeap y then 29 else 28, 31, 30, 31, 30, 31, 31, 30, 31, 30, 31]

/-- Days from the epoch (1970-01-01) to the start of year `y`, for
`y ≥ 1970`: the ECMAScript `DayFromYear(y)` formula
`365(y-1970) + floor((y-1969)/4) - floor((y-1901)/100) + floor((y-1601)/400)`. -/
def daysToYear (y : Nat) : Nat :=
  365 * (y - 1970) + (y - 1969) / 4 - (y - 1901) / 100 + (y - 1601) / 400

/-- Splits a day count into (year, day-of-year): starting at year `y`,
subtracts whole years while they fit.  `fuel` bounds the iteration; any
`fuel > d` is enough since every year has at least 365 days. -/
def yearSplit : Nat → Nat → Nat → Nat × Nat
  | 0, y, d => (y, d)
  | fuel + 1, y, d =>
    if daysInYear y ≤ d then yearSplit fuel (y + 1) (d - daysInYear y)
    else (y, d)

/-- Splits a day-of-year into (month, day-of-month, zero-based) by
walking the month-length list, `m` being the number of the first month of
the list. -/
def monthSplit : List Nat → Nat → Nat → Nat × Nat
  | [], m, d => (m, d)
  | len :: rest, m, d =>
    if len ≤ d then monthSplit rest (m + 1) (d - len) else (m, d)

/-- UTC calendar date (year, month, day — months and days 1-based) of a
day count since the epoch. -/
def civilFromDays (z : Nat) : Nat × Nat × Nat :=
  let ys := yearSplit (z + 1) 1970 z
  let ms := monthSplit (monthLengths ys.1) 1 ys.2
  (ys.1, ms.1, ms.2 + 1)

/-- Day count since the epoch of a UTC calendar date (ECMAScript
`MakeDay`): days of the whole years, plus the months before `m`, plus the
day of month. -/
def daysFromCivil (y m d : Nat) : Nat :=
  daysToYear y + ((monthLengths y).take (m - 1)).sum + (d - 1)

/-- The decimal digit character for `n < 10`. -/
def digitChar (n : Nat) : Char := Char.ofNat (48 + n)

/-- Two-digit zero-padded decimal rendering (`n ≤ 99`). -/
def pad2 (n : Nat) : List Char := [digitChar (n / 10 % 10), digitChar (n % 10)]

/-- Four-digit zero-padded decimal rendering (`n ≤ 9999`). -/
def pad4 (n : Nat) : List Char :=
  [digitChar (n / 1000 % 10), digitChar (n / 100 % 10),
   digitChar (n / 10 % 10), digitChar (n % 10)]

/-- Model of `date.toISOString().slice(0, 19).replace("T", " ")` on a
millisecond timestamp: the canonical `YYYY-MM-DD HH:MM:SS` form, UTC,
truncated to whole seconds. -/
def toISOStringSliced (ms : Nat) : String :=
  let totalSec := ms / 1000
  let days := totalSec / 86400
  let sod := totalSec % 86400
  let c := civilFromDays days
  ⟨pad4 c.1 ++ '-' :: pad2 c.2.1 ++ '-' :: pad2 c.2.2
    ++ ' ' :: pad2 (sod / 3600) ++ ':' :: pad2 (sod % 3600 / 60)
    ++ ':' :: pad2 (sod % 60)⟩

/-- Decimal digit test on a character. -/
def isDigitChar (c : Char) : Bool := 48 ≤ c.toNat && c.toNat ≤ 57

/-- Numeric value of a decimal digit character. -/
def digitVal (c : Char) : Nat := c.toNat - 48

/-- Character-level worker of `jsDateParse`. -/
def jsDateParseChars (cs : List Char) : Option Nat :=
  match cs with
  | [y1, y2, y3, y4, '-', mo1, mo2, '-', d1, d2, ' ',
     h1, h2, ':', mi1, mi2, ':', s1, s2] =>
    if isDigitChar y1 = true ∧ isDigitChar y2 = true ∧ isDigitChar y3 = true ∧
       isDigitChar y4 = true ∧ isDigitChar mo1 = true ∧ isDigitChar mo2 = true ∧
       isDigitChar d1 = true ∧ isDigitChar d2 = true ∧ isDigitChar h1 = true ∧
       isDigitChar h2 = true ∧ isDigitChar mi1 = true ∧ isDigitChar mi2 = true ∧
       isDigitChar s1 = true ∧ isDigitChar s2 = true then
      let y := 1000 * digitVal y1 + 100 * digitVal y2 + 10 * digitVal y3 + digitVal y4
      let mo := 10 * digitVal mo1 + digitVal mo2
      let d := 10 * digitVal d1 + digitVal d2
      let h := 10 * digitVal h1 + digitVal h2
      let mi := 10 * digitVal mi1 + digitVal mi2
      let sec := 10 * digitVal s1 + digitVal s2
      if 1970 ≤ y ∧ 1 ≤ mo ∧ mo ≤ 12 ∧ 1 ≤ d ∧ d ≤ 31 ∧ h ≤ 23 ∧ mi ≤ 59 ∧ sec ≤ 59 then
        some ((daysFromCivil y mo d * 86400 + h * 3600 + mi * 60 + sec) * 1000)
      else none
    else none
  | _ => none

/-- Model of `new Date(s)` applied to a `"YYYY-MM-DD HH:MM:SS"` string
under a UTC runtime, returning the millisecond timestamp, or `none` for
strings an engine rejects as invalid (`isNaN(date.getTime())`).
Pre-epoch years are outside the modelled (nonnegative-timestamp)
range. -/
def jsDateParse (s : String) : Option Nat := jsDateParseChars s.data


/-! ### Model of `JSON.stringify` and `JSON.parse`

The two builtins are modelled as an executable printer/parser pair over
`JSVal`.  The printer follows `JSON.stringify` on the values the source
feeds it (objects and arrays of primitives): no whitespace, `"`/`\\`
escaped, object fields in insertion order.  Values outside the JSON-safe
fragment (`undefined`, `Date`, `Buffer`, control characters — all
excluded by `jsonSafeB`, the domain of the round-trip theorems) are
printed on a best-effort basis.  The parser accepts exactly the
whitespace-free JSON the printer emits, with a fuel argument bounding
recursion depth (any fuel at least twice the input length suffices). -/

/-- JSON escaping of one character (quote and backslash). -/
def escChar (c : Char) : List Char :=
  if c = '"' then ['\\', '"']
  else if c = '\\' then ['\\', '\\']
  else [c]

/-- JSON escaping of a character list. -/
def escapeChars : List Char → List Char
  | [] => []
  | c :: cs => escChar c ++ escapeChars cs

/-- JSON escaping of a string. -/
def escapeStr (s : String) : List Char := escapeChars s.data

/-- Most-significant-first decimal digits of `n`, with explicit fuel
(structural recursion; any fuel at least `n` suffices). -/
def natDigitsFuel : Nat → Nat → List Char
  | 0, n => [digitChar (n % 10)]
  | fuel + 1, n =>
    if n < 10 then [digitChar n]
    else natDigitsFuel fuel (n / 10) ++ [digitChar (n % 10)]

/-- Decimal rendering of a natural number. -/
def natDigits (n : Nat) : List Char := natDigitsFuel n n

/-- Decimal rendering of an integer (JS number formatting of an integral
value). -/
def intPrint (n : Int) : List Char :=
  if n < 0 then '-' :: natDigits (-n).toNat else natDigits n.toNat

/-- Reads a maximal run of decimal digits, folding them onto `acc`;
returns the value and the unconsumed input. -/
def readDigits : List Char → Nat → Nat × List Char
  | [], acc => (acc, [])
  | c :: cs, acc =>
    if isDigitChar c then readDigits cs (10 * acc + digitVal c)
    else (acc, c :: cs)

/-- Three-digit zero-padded decimal rendering (`n ≤ 999`). -/
def pad3 (n : Nat) : List Char :=
  [digitChar (n / 100 % 10), digitChar (n / 10 % 10), digitChar (n % 10)]

/-- Model of the full `date.toISOString()` (as `Date.prototype.toJSON`
yields inside `JSON.stringify`). -/
def toISOStringFull (ms : Nat) : List Char :=
  let totalSec := ms / 1000
  let days := totalSec / 86400
  let sod := totalSec % 86400
  let c := civilFromDays days
  pad4 c.1 ++ '-' :: pad2 c.2.1 ++ '-' :: pad2 c.2.2
    ++ 'T' :: pad2 (sod / 3600) ++ ':' :: pad2 (sod % 3600 / 60)
    ++ ':' :: pad2 (sod % 60) ++ '.' :: pad3 (ms % 1000) ++ ['Z']

/-- Decimal renderings of a byte list joined by commas (the `data` array
of a serialized Node `Buffer`). -/
def bytesJoined : List Nat → List Char
  | [] => []
  | [b] => natDigits b
  | b :: rest => natDigits b ++ ',' :: bytesJoined rest

/-- `JSON.stringify` of a Node `Buffer`:
`\x7b"type":"Buffer","data":[..]\x7d`. -/
def bufJson (bytes : List Nat) : List Char :=
  '\x7b' :: '"' :: 't' :: 'y' :: 'p' :: 'e' :: '"' :: ':' :: '"' :: 'B' :: 'u'
    :: 'f' :: 'f' :: 'e' :: 'r' :: '"' :: ',' :: '"' :: 'd' :: 'a' :: 't'
    :: 'a' :: '"' :: ':' :: '[' :: (bytesJoined bytes ++ [']', '\x7d'])

mutual

/-- Character output of `JSON.stringify` on a `JSVal` (see the section
comment for the modelled domain). -/
def printJson : JSVal → List Char
  | .num n => intPrint n
  | .null => "null".data
  | .undef => "null".data
  | .bool b => (if b then "true" else "false").data
  | .str s => '"' :: (escapeStr s ++ ['"'])
  | .jdate ms => '"' :: (toISOStringFull ms ++ ['"'])
  | .buf bytes => bufJson bytes
  | .arr es => '[' :: (printElemsCore es ++ [']'])
  | .obj fs => '\x7b' :: (printFieldsCore fs ++ ['\x7d'])

/-- Array elements, comma separated. -/
def printElemsCore : List JSVal → List Char
  | [] => []
  | [v] => printJson v
  | v :: vs => printJson v ++ ',' :: printElemsCore vs

/-- Object fields, comma separated. -/
def printFieldsCore : List (String × JSVal) → List Char
  | [] => []
  | [kv] => printField1 kv
  | kv :: kvs => printField1 kv ++ ',' :: printFieldsCore kvs

/-- One `"key":value` field. -/
def printField1 : String × JSVal → List Char
  | kv => '"' :: (escapeStr kv.1 ++ '"' :: ':' :: printJson kv.2)

end

/-- `JSON.stringify` as a string-valued function. -/
def jsonStringify (v : JSVal) : String := ⟨printJson v⟩

/-- Parses a JSON string body after the opening quote, undoing the
escaping, up to the closing quote. -/
def parseStrBody : List Char → Option (String × List Char)
  | [] => none
  | '\\' :: c :: rest =>
    (parseStrBody rest).map (fun r => (⟨c :: r.1.data⟩, r.2))
  | '"' :: rest => some ("", rest)
  | c :: rest =>
    (parseStrBody rest).map (fun r => (⟨c :: r.1.data⟩, r.2))

/-- Array tail after `[`: either the immediate close of an empty array,
or the element list parsed by `pe`. -/
def parseArrBodyWith (pe : List Char → Option (List JSVal × List Char)) :
    List Char → Option (JSVal × List Char)
  | ']' :: rest2 => some (.arr [], rest2)
  | cs => (pe cs).map (fun r => (.arr r.1, r.2))

/-- Object tail after `\x7b`: either the immediate close of an empty
object, or the field list parsed by `pf`. -/
def parseObjBodyWith
    (pf : List Char → Option (List (String × JSVal) × List Char)) :
    List Char → Option (JSVal × List Char)
  | '\x7d' :: rest2 => some (.obj [], rest2)
  | cs => (pf cs).map (fun r => (.obj r.1, r.2))

mutual

/-- Parses one JSON value; returns it with the unconsumed input. -/
def parseVal : Nat → List Char → Option (JSVal × List Char)
  | 0, _ => none
  | fuel + 1, cs =>
    match cs with
    | [] => none
    | c :: rest =>
      if c = 'n' then
        match rest with
        | 'u' :: 'l' :: 'l' :: rest2 => some (.null, rest2)
        | _ => none
      else if c = 't' then
        match rest with
        | 'r' :: 'u' :: 'e' :: rest2 => some (.bool true, rest2)
        | _ => none
      else if c = 'f' then
        match rest with
        | 'a' :: 'l' :: 's' :: 'e' :: rest2 => some (.bool false, rest2)
        | _ => none
      else if c = '"' then
        (parseStrBody rest).map (fun r => (.str r.1, r.2))
      else if c = '[' then
        parseArrBodyWith (parseElems fuel) rest
      else if c = '\x7b' then
        parseObjBodyWith (parseFields fuel) rest
      else if c = '-' then
        match rest with
        | c2 :: rest2 =>
          if isDigitChar c2 then
            let r := readDigits (c2 :: rest2) 0
            some (.num (-(r.1 : Int)), r.2)
          else none
        | [] => none
      else if isDigitChar c then
        let r := readDigits (c :: rest) 0
        some (.num ((r.1 : Int)), r.2)
      else none

/-- Parses the elements of a non-empty array up to the closing bracket. -/
def parseElems : Nat → List Char → Option (List JSVal × List Char)
  | 0, _ => none
  | fuel + 1, cs =>
    match parseVal fuel cs with
    | some (v, rest) =>
      match rest with
      | ',' :: rest2 =>
        (parseElems fuel rest2).map (fun r => (v :: r.1, r.2))
      | ']' :: rest2 => some ([v], rest2)
      | _ => none
    | none => none

/-- Parses the fields of a non-empty object up to the closing brace. -/
def parseFields : Nat → List Char → Option (List (String × JSVal) × List Char)
  | 0, _ => none
  | fuel + 1, cs =>
    match cs with
    | '"' :: rest =>
      match parseStrBody rest with
      | some (k, rest1) =>
        match rest1 with
        | ':' :: rest2 =>
          match parseVal fuel rest2 with
          | some (v, rest3) =>
            match rest3 with
            | ',' :: rest4 =>
              (parseFields fuel rest4).map (fun r => ((k, v) :: r.1, r.2))
            | '\x7d' :: rest4 => some ([(k, v)], rest4)
            | _ => none
          | none => none
        | _ => none
      | none => none
    | _ => none

end

/-- `JSON.parse`: parses the whole string (fuel twice the length plus two
bounds the recursion depth of any parse that can succeed). -/
def jsonParse (s : String) : Option JSVal :=
  match parseVal (2 * s.data.length + 2) s.data with
  | some (v, []) => some v
  | _ => none

/-- A string within the exactly-modelled `JSON.stringify` domain: no
control characters (real stringify emits `\\u` escapes for those). -/
def strSafeB (s : String) : Bool := s.data.all (fun c => 32 ≤ c.toNat)

mutual

/-- The JSON-safe fragment of `JSVal`: null, booleans, integral numbers,
control-character-free strings, and arrays/objects of such values — the
domain on which the printer matches `JSON.stringify` exactly. -/
def jsonSafeB : JSVal → Bool
  | .null => true
  | .undef => false
  | .bool _ => true
  | .num _ => true
  | .str s => strSafeB s
  | .jdate _ => false
  | .buf _ => false
  | .arr es => jsonSafeList es
  | .obj fs => jsonSafeFields fs

/-- `jsonSafeB` over array elements. -/
def jsonSafeList : List JSVal → Bool
  | [] => true
  | v :: vs => jsonSafeB v && jsonSafeList vs

/-- `jsonSafeB` over object fields (keys must be safe strings too). -/
def jsonSafeFields : List (String × JSVal) → Bool
  | [] => true
  | kv :: kvs => strSafeB kv.1 && jsonSafeB kv.2 && jsonSafeFields kvs

end

mutual

/-- Fuel needed by `parseVal` on printed output (proof-side bound). -/
def parseFuelNeed : JSVal → Nat
  | .null => 1
  | .undef => 1
  | .bool _ => 1
  | .num _ => 1
  | .str _ => 1
  | .jdate _ => 1
  | .buf _ => 1
  | .arr es => 1 + parseFuelNeedList es
  | .obj fs => 1 + parseFuelNeedFields fs

/-- Fuel needed by `parseElems` on printed elements. -/
def parseFuelNeedList : List JSVal → Nat
  | [] => 1
  | v :: vs => 1 + parseFuelNeed v + parseFuelNeedList vs

/-- Fuel needed by `parseFields` on printed fields. -/
def parseFuelNeedFields : List (String × JSVal) → Nat
  | [] => 1
  | kv :: kvs => 1 + parseFuelNeed kv.2 + parseFuelNeedFields kvs

end

end OrmDao

namespace OrmDao

/-! ### Entity lifecycle (`entity.model.ts`) -/

/-- The `EntityPropertyType` enum of the `@Type` decorator registry
(`utils/type-decorators`): `JSON = "json"`, `DATE = "date"`. -/
inductive PropType where
  | json
  | date
deriving DecidableEq

/-- `typeof v === "object" && v !== null` in JS: arrays, plain objects,
`Date`s and `Buffer`s. -/
def isNonNullObject : JSVal → Bool
  | .arr _ => true
  | .obj _ => true
  | .jdate _ => true
  | .buf _ => true
  | _ => false

/-- One iteration of the `Entity.init` loop: `getPropertyType` drives the
deserialization of the raw value.  A JSON-kind string is `JSON.parse`d and
kept only when the result is a non-null object (parse failures are
swallowed); a DATE-kind string becomes a `Date` when `new Date(value)` is
valid; everything else is assigned verbatim. -/
def hydrateField (reg : String → Option PropType) (k : String)
    (v : JSVal) : JSVal :=
  match reg k, v with
  | some .json, .str s =>
    match jsonParse s with
    | some parsed => if isNonNullObject parsed then parsed else v
    | none => v
  | some .date, .str s =>
    match jsDateParse s with
    | some ms => .jdate ms
    | none => v
  | _, _ => v

/-- `Entity.init(attributes)`: assigns every supplied field after
conversion.  `reg` is the per-type conversion registry
(`getPropertyType`). -/
def init (reg : String → Option PropType) (attributes : Rec) : Rec :=
  attributes.map (fun kv => (kv.1, hydrateField reg kv.1 kv.2))

/-- One iteration of the `toDBRecord` coercion loop over the shallow
copy: `undefined` becomes null; a JSON-kind non-null object is
stringified; a DATE-kind value or any `Date` instance is formatted as
`YYYY-MM-DD HH:MM:SS` when valid (`new Date` on a number below the epoch
is outside the modelled timestamp range and left unchanged, as are the
non-string non-number oddities JS would coerce through `Number()`);
otherwise a remaining non-null non-`Buffer` object is stringified as a
fallback; primitives and `Buffer`s pass through. -/
def serializeField (reg : String → Option PropType) (k : String)
    (v : JSVal) : JSVal :=
  match v with
  | .undef => .null
  | _ =>
    match reg k with
    | some .json => if isNonNullObject v then .str (jsonStringify v) else v
    | some .date =>
      match v with
      | .jdate ms => .str (toISOStringSliced ms)
      | .str s =>
        match jsDateParse s with
        | some ms => .str (toISOStringSliced ms)
        | none => v
      | .num n => if 0 ≤ n then .str (toISOStringSliced n.toNat) else v
      | _ => v
    | none =>
      match v with
      | .jdate ms => .str (toISOStringSliced ms)
      | .arr _ => .str (jsonStringify v)
      | .obj _ => .str (jsonStringify v)
      | _ => v

/-- `Entity.toDBRecord()`: shallow-copies the fields, applies the
coercion loop to the copy, and deletes `_joins` from it. -/
def toDBRecord (reg : String → Option PropType) (fields : Rec) : Rec :=
  (fields.map (fun kv => (kv.1, serializeField reg kv.1 kv.2))).filter
    (fun kv => kv.1 != "_joins")

/-- The `true | string` result of the `Entity.validate` hook. -/
inductive ValidateResult where
  | isTrue
  | msg (s : String)

/-- The `EntityValidationError` of `utils/types.ts`: an `Error` subclass
whose `name` is `"EntityValidationError"` and whose message is the string
handed to the constructor. -/
structure EntityValidationError where
  name : String
  message : String

/-- The `Entity` constructor: `this.init(attributes)`, then
`this.validate()`; when the result is not `true` (a string message `s`),
`new EntityValidationError(s)` is thrown and no entity is produced. -/
def entityConstruct (reg : String → Option PropType)
    (validate : Rec → ValidateResult) (attributes : Rec) :
    Except EntityValidationError Rec :=
  let inited := init reg attributes
  match validate inited with
  | .isTrue => .ok inited
  | .msg s => .error ⟨"EntityValidationError", s⟩

/-! ### Heap model of `toDBRecord`'s shallow copy (frame property) -/

/-- A JS object heap: addresses to field records. -/
def Heap : Type := Nat → Option Rec

/-- `toDBRecord` as it acts on the heap: `\x7b...this\x7d` allocates the
copy at the fresh address; every subsequent write of the coercion loop
(`record[key] = ...`) and the final `delete record._joins` target that
fresh address only, summarized by storing `toDBRecord` of the fields
there.  The entity at `self` is only read. -/
def toDBRecordHeap (reg : String → Option PropType) (h : Heap)
    (self fresh : Nat) : Heap :=
  match h self with
  | none => h
  | some fields =>
    fun a => if a = fresh then some (toDBRecord reg fields) else h a

end OrmDao

namespace OrmDao

/-! ### Placeholder counting lemmas -/

theorem countPh_qq (t : List Char) : countPh ('?' :: '?' :: t) = 1 + countPh t := rfl

theorem countPh_q_nil : countPh ['?'] = 1 := rfl

theorem countPh_cons (c : Char) (xs : List Char) (h : ¬ c = '?') :
    countPh (c :: xs) = countPh xs := by
  rw [countPh.eq_def]
  split
  · rename_i heq; cases heq
  · rename_i heq; cases heq; exact absurd rfl h
  · rename_i heq; cases heq; exact absurd rfl h
  · rename_i heq; cases heq; rfl

theorem countPh_q1 (c : Char) (t : List Char) (hc : ¬ c = '?') :
    countPh ('?' :: c :: t) = 1 + countPh (c :: t) := by
  rw [countPh.eq_def]
  split
  · rename_i heq; cases heq
  · rename_i heq; cases heq; exact absurd rfl hc
  · rename_i heq; cases heq; rfl
  · rename_i h1 h2; cases h2; exact absurd rfl h1

theorem countPh_strip (pre xs : List Char) (h : ∀ c ∈ pre, ¬ c = '?') :
    countPh (pre ++ xs) = countPh xs := by
  induction pre with
  | nil => rfl
  | cons c cs ih =>
    rw [List.cons_append, countPh_cons c _ (h c (by simp)), ih]
    intro d hd; exact h d (by simp [hd])

theorem countPh_append (xs ys : List Char) (hy : ys.head? ≠ some '?') :
    countPh (xs ++ ys) = countPh xs + countPh ys := by
  induction xs using countPh.induct with
  | case1 => simp [countPh]
  | case2 rest ih =>
    rw [List.cons_append, List.cons_append, countPh_qq, countPh_qq]
    omega
  | case3 rest hne ih =>
    cases rest with
    | nil =>
      cases ys with
      | nil => simp [countPh]
      | cons c cs =>
        have hc : ¬ c = '?' := by intro h; exact hy (by simp [h])
        show countPh ('?' :: c :: cs) = countPh ['?'] + countPh (c :: cs)
        rw [countPh_q1 c cs hc, countPh_q_nil]
    | cons c cs =>
      have hc : ¬ c = '?' := fun h => hne cs (by rw [h])
      show countPh ('?' :: c :: (cs ++ ys)) = countPh ('?' :: c :: cs) + countPh ys
      rw [countPh_q1 c _ hc, countPh_q1 c _ hc]
      have ih' := ih
      simp only [List.cons_append] at ih'
      omega
  | case4 hd rest h1 h2 ih =>
    rw [List.cons_append, countPh_cons hd _ h2, countPh_cons hd _ h2, ih]

theorem countPh_joinClauses (sep : String) (hsep : ∀ c ∈ sep.data, ¬ c = '?')
    (hne : sep.data ≠ []) (frags : List String) (tail : List Char)
    (htail : tail.head? ≠ some '?') :
    countPh ((joinClauses sep frags).data ++ tail)
      = (frags.map countPlaceholders).sum + countPh tail := by
  induction frags with
  | nil => simp [joinClauses]
  | cons s rest ih =>
    cases rest with
    | nil =>
      show countPh (s.data ++ tail) = _
      rw [countPh_append _ _ htail]
      simp [countPlaceholders]
    | cons s2 rest2 =>
      show countPh ((s ++ sep ++ joinClauses sep (s2 :: rest2)).data ++ tail) = _
      have hd : (sep.data ++ ((joinClauses sep (s2 :: rest2)).data ++ tail)).head? ≠ some '?' := by
        cases hsd : sep.data with
        | nil => exact absurd hsd hne
        | cons c cs =>
          have : ¬ c = '?' := hsep c (by rw [hsd]; simp)
          simp [this]
      rw [String.data_append, String.data_append, List.append_assoc, List.append_assoc,
        countPh_append _ _ hd, countPh_strip _ _ hsep, ih]
      simp [countPlaceholders]
      omega

end OrmDao

namespace OrmDao

/-- C1: for every condition tree, the compiled WHERE fragment's placeholder
count equals the length of the parameter list the call appends: a
comparison leaf appends exactly the three parameters
`[qualifying table, field, value]` in that order and emits exactly three
placeholders, and a composite accumulates its children's parameters
pre-order, left to right (`whereParams`/`whereParamsList` spell out that
order). -/
theorem buildWhereClause_placeholders_match_params (dao : String) (w : Where)
    (params : List JSVal) (en : String) :
    (buildWhereClause dao w params en).2 = params ++ whereParams dao w en ∧
    countPlaceholders (buildWhereClause dao w params en).1
      = (whereParams dao w en).length := by
  refine buildWhereClause.induct dao
    (fun w params en =>
      (buildWhereClause dao w params en).2 = params ++ whereParams dao w en ∧
      countPlaceholders (buildWhereClause dao w params en).1
        = (whereParams dao w en).length)
    (fun ws params =>
      (buildWhereList dao ws params).2 = params ++ whereParamsList dao ws ∧
      ((buildWhereList dao ws params).1.map countPlaceholders).sum
        = (whereParamsList dao ws).length)
    ?_ ?_ ?_ ?_ w params en
  · intro params en conn preps ih
    obtain ⟨ih1, ih2⟩ := ih
    have hb : buildWhereClause dao (.comp conn preps) params en
        = ("(" ++ joinClauses (" " ++ conn.toStr ++ " ")
            (buildWhereList dao preps params).1 ++ ")",
           (buildWhereList dao preps params).2) := rfl
    constructor
    · rw [hb]
      exact ih1
    · rw [hb]
      have hsep : ∀ c ∈ (" " ++ conn.toStr ++ " ").data, ¬ c = '?' := by
        cases conn <;> decide
    
      have hne : (" " ++ conn.toStr ++ " ").data ≠ [] := by
        cases conn <;> decide
      have hdata : ("(" ++ joinClauses (" " ++ conn.toStr ++ " ")
            (buildWhereList dao preps params).1 ++ ")").data
          = '(' :: ((joinClauses (" " ++ conn.toStr ++ " ")
            (buildWhereList dao preps params).1).data ++ [')']) := by
        simp [String.data_append]
      show countPlaceholders _ = _
      rw [countPlaceholders, hdata,
        countPh_cons '(' _ (by decide),
        countPh_joinClauses _ hsep hne _ [')'] (by decide)]
      have : countPh [')'] = 0 := rfl
      rw [this]
      have hwp : whereParams dao (.comp conn preps) en = whereParamsList dao preps := rfl
      rw [hwp]
      omega
  · intro params en field op value
    constructor
    · rfl
    · show countPlaceholders (buildWhereClause dao (.cond field op value) params en).1 = 3
      cases hop : op.getD WhereOp.eq <;>
        simp [buildWhereClause, hop, countPlaceholders] <;> decide
  · intro params
    exact ⟨by simp [buildWhereList, whereParamsList],
           by simp [buildWhereList, whereParamsList]⟩
  · intro params w rest
    dsimp only
    intro ih1 ih2
    obtain ⟨ihA, ihB⟩ := ih1
    obtain ⟨ihC, ihD⟩ := ih2
    have hb : buildWhereList dao (w :: rest) params
        = ((buildWhereClause dao w params dao).1
            :: (buildWhereList dao rest (buildWhereClause dao w params dao).2).1,
           (buildWhereList dao rest (buildWhereClause dao w params dao).2).2) := rfl
    have hwl : whereParamsList dao (w :: rest)
        = whereParams dao w dao ++ whereParamsList dao rest := rfl
    constructor
    · rw [hb, hwl]
      show (buildWhereList dao rest (buildWhereClause dao w params dao).2).2 = _
      rw [ihC, ihA, List.append_assoc]
    · rw [hb, hwl]
      show countPlaceholders (buildWhereClause dao w params dao).1
          + ((buildWhereList dao rest (buildWhereClause dao w params dao).2).1.map
              countPlaceholders).sum = _
      rw [ihB, ihD, List.length_append]


/-- C2: with a target-table override (as `selectWhere` passes for a join's
own condition), a top-level comparison is qualified with the override, but
a comparison nested inside a composite is qualified with the DAO's own
entity table — the recursive call drops the override argument. -/
theorem buildWhereClause_composite_drops_override :
    (buildWhereClause "main" (.comp .and [.cond "f" none (.num 1)]) [] "rightTable").2
        = [.str "main", .str "f", .num 1] ∧
    (buildWhereClause "main" (.cond "f" none (.num 1)) [] "rightTable").2
        = [.str "rightTable", .str "f", .num 1] ∧
    ("main" : String) ≠ "rightTable" := by
  refine ⟨rfl, rfl, by decide⟩

/-- C3: `selectAllPaginated(p, s)` delegates to `selectWhere` with the
always-true condition `id > 0`, `limit = s` and `offset = (p-1)*s`, and
the delegated call's LIMIT/OFFSET tail binds exactly those two values. -/
theorem selectAllPaginated_offset {J O : Type} (p s : Int) (hp : 1 ≤ p)
    (j : J) (ob : O) :
    (selectAllPaginated p s j ob).whereArg = .cond "id" (some .gt) (.num 0) ∧
    (selectAllPaginated p s j ob).limit = some s ∧
    (selectAllPaginated p s j ob).offset = some ((p - 1) * s) ∧
    limitOffsetClause (selectAllPaginated p s j ob).limit
        (selectAllPaginated p s j ob).offset
      = (" LIMIT ? OFFSET ?", [.num s, .num ((p - 1) * s)]) ∧
    (selectAllPaginated p s j ob).joins = j ∧
    (selectAllPaginated p s j ob).orderBy = ob :=
  ⟨rfl, rfl, rfl, rfl, rfl, rfl⟩

/-- C3 witness: the boundary instances of the spec — page 1 yields offset
0 and page 2 with page size 10 yields offset 10. -/
theorem selectAllPaginated_offset_witness :
    (selectAllPaginated (1 : Int) 10 () ()).offset = some ((1 - 1) * 10) ∧
    (selectAllPaginated (2 : Int) 10 () ()).offset = some ((2 - 1) * 10) ∧
    ((1 : Int) - 1) * 10 = 0 ∧ ((2 : Int) - 1) * 10 = 10 :=
  ⟨(selectAllPaginated_offset 1 10 (by decide) () ()).2.2.1,
   (selectAllPaginated_offset 2 10 (by decide) () ()).2.2.1,
   by decide, by decide⟩

/-- C4: on an empty table, `selectRandom` raises a `TypeError` (the
destructured first row is `undefined` and `"ID" in undefined` throws)
instead of returning null; and on a row whose identifier column is the
lower-case `id`, the upper-case `"ID"` check fails and null is returned
instead of the entity. -/
theorem selectRandom_behaviour :
    selectRandom [] = .typeError ∧
    selectRandom [[("id", .num 7)]] = .nullRes ∧
    selectRandom [[("ID", .num 7)]] = .entity [("ID", .num 7)] :=
  ⟨rfl, rfl, rfl⟩

/-- C5: when a condition is supplied but matches no rows, `deleteWhere`
still executes the `DELETE` and returns the empty array (a JS array is
truthy even when empty), not null; null is returned exactly when no
condition is supplied; when rows match, the pre-read rows are returned. -/
theorem deleteWhere_behaviour :
    deleteWhere [] (some (.cond "id" none (.num 5))) = (some [], true) ∧
    (deleteWhere [] (some (.cond "id" none (.num 5)))).1.isSome = true ∧
    deleteWhere [[("id", .num 1)]] none = (none, false) ∧
    deleteWhere [[("id", .num 1)]] (some (.cond "id" none (.num 1)))
      = (some [[("id", .num 1)]], true) :=
  ⟨rfl, rfl, rfl, rfl⟩

/-- C6: `upsertAll` never returns identifiers — the id list is empty for
every input — and it makes exactly one execution-layer call for a
non-empty input and zero calls for the empty input. -/
theorem upsertAll_no_ids (tn : String) (dbRecords : List Rec) :
    (upsertAll tn dbRecords).2 = [] ∧
    (upsertAll tn dbRecords).1.length = (if dbRecords.isEmpty then 0 else 1) := by
  cases dbRecords with
  | nil => exact ⟨rfl, rfl⟩
  | cons r rest => exact ⟨rfl, rfl⟩

/-- C8: given the connection is acquired, `runInTransaction` releases the
connection exactly once on every exit path; on full success it commits,
does not roll back, and returns the callback's value; on a callback
failure it rolls back and re-raises the callback's error when the
rollback succeeds, while a rollback failure propagates the rollback's own
error (not suppressed) — the release still having happened exactly once. -/
theorem runInTransaction_contract {α ε : Type} (env : TxEnv α ε)
    (hc : env.getConnection = .ok ()) :
    (runInTransaction env).releases = 1 ∧
    (∀ a, env.beginTransaction = .ok () → env.callback = .ok a →
      env.commit = .ok () →
      (runInTransaction env).result = .ok a ∧
      (runInTransaction env).commits = 1 ∧
      (runInTransaction env).rollbacks = 0) ∧
    (∀ e, env.beginTransaction = .ok () → env.callback = .error e →
      (runInTransaction env).rollbacks = 1 ∧
      (env.rollback = .ok () → (runInTransaction env).result = .error e) ∧
      (∀ e2, env.rollback = .error e2 →
        (runInTransaction env).result = .error e2)) := by
  refine ⟨?_, ?_, ?_⟩
  · unfold runInTransaction
    rw [hc]
    cases hb : env.beginTransaction with
    | error e => cases env.rollback <;> rfl
    | ok u =>
      cases env.callback with
      | error e => cases env.rollback <;> rfl
      | ok a =>
        cases env.commit with
        | error e => cases env.rollback <;> rfl
        | ok v => rfl
  · intro a hb hcb hcm
    unfold runInTransaction
    rw [hc, hb, hcb, hcm]
    exact ⟨rfl, rfl, rfl⟩
  · intro e hb hcb
    unfold runInTransaction
    rw [hc, hb, hcb]
    refine ⟨?_, ?_, ?_⟩
    · cases env.rollback <;> rfl
    · intro hr; rw [hr]
    · intro e2 hr; rw [hr]

/-- C8 witness: the all-successful environment releases once and returns
the callback's value; a failing callback with a successful rollback
re-raises the original error, still releasing once. -/
theorem runInTransaction_contract_witness :
    (runInTransaction (⟨.ok (), .ok (), .ok 5, .ok (), .ok ()⟩ : TxEnv Nat String)).releases = 1 ∧
    (runInTransaction (⟨.ok (), .ok (), .ok 5, .ok (), .ok ()⟩ : TxEnv Nat String)).result = .ok 5 ∧
    (runInTransaction (⟨.ok (), .ok (), .error "boom", .ok (), .ok ()⟩ : TxEnv Nat String)).result = .error "boom" ∧
    (runInTransaction (⟨.ok (), .ok (), .error "boom", .ok (), .ok ()⟩ : TxEnv Nat String)).releases = 1 :=
  ⟨(runInTransaction_contract _ rfl).1,
   ((runInTransaction_contract _ rfl).2.1 5 rfl rfl rfl).1,
   (((runInTransaction_contract _ rfl).2.2 "boom" rfl rfl).2.1 rfl),
   (runInTransaction_contract _ rfl).1⟩

end OrmDao

namespace OrmDao

/-! ### Calendar lemmas -/

theorem daysInYear_pos (y : Nat) : 1 ≤ daysInYear y := by
  unfold daysInYear; split <;> omega

theorem isLeap_iff (y : Nat) :
    isLeap y = true ↔ ((y % 4 = 0 ∧ ¬ y % 100 = 0) ∨ y % 400 = 0) := by
  simp [isLeap]

set_option maxHeartbeats 2000000 in
theorem daysToYear_succ (y : Nat) (hy : 1970 ≤ y) :
    daysToYear (y + 1) = daysToYear y + daysInYear y := by
  unfold daysToYear daysInYear
  by_cases hl : isLeap y = true
  · rw [if_pos hl]
    rw [isLeap_iff] at hl
    rcases hl with ⟨h4, h100⟩ | h400 <;> omega
  · rw [if_neg hl]
    rw [isLeap_iff] at hl
    push_neg at hl
    obtain ⟨h1, h400⟩ := hl
    by_cases h4 : y % 4 = 0
    · have h100 := h1 h4
      clear h1
      omega
    · clear h1
      omega

theorem yearSplit_spec : ∀ (fuel y d : Nat), d < fuel → 1970 ≤ y →
    daysToYear (yearSplit fuel y d).1 + (yearSplit fuel y d).2
        = daysToYear y + d ∧
    (yearSplit fuel y d).2 < daysInYear (yearSplit fuel y d).1 ∧
    1970 ≤ (yearSplit fuel y d).1 ∧ y ≤ (yearSplit fuel y d).1 := by
  intro fuel
  induction fuel with
  | zero => intro y d h; omega
  | succ fuel ih =>
    intro y d hd hy
    by_cases hle : daysInYear y ≤ d
    · have step : yearSplit (fuel + 1) y d
          = yearSplit fuel (y + 1) (d - daysInYear y) := by
        simp [yearSplit, hle]
      have hpos := daysInYear_pos y
      have hd2 : d - daysInYear y < fuel := by omega
      obtain ⟨a, b, c, e⟩ := ih (y + 1) (d - daysInYear y) hd2 (by omega)
      rw [step]
      refine ⟨?_, b, c, by omega⟩
      rw [a, daysToYear_succ y hy]
      omega
    · have step : yearSplit (fuel + 1) y d = (y, d) := by
        simp [yearSplit, hle]
      rw [step]
      refine ⟨rfl, ?_, hy, Nat.le_refl y⟩
      show d < daysInYear y
      omega

theorem monthSplit_spec : ∀ (lens : List Nat) (m d : Nat), d < lens.sum →
    (monthSplit lens m d).1 - m < lens.length ∧
    m ≤ (monthSplit lens m d).1 ∧
    (lens.take ((monthSplit lens m d).1 - m)).sum + (monthSplit lens m d).2 = d ∧
    (monthSplit lens m d).2 < lens.getD ((monthSplit lens m d).1 - m) 0 := by
  intro lens
  induction lens with
  | nil => intro m d h; simp at h
  | cons len rest ih =>
    intro m d hd
    by_cases hle : len ≤ d
    · have step : monthSplit (len :: rest) m d
          = monthSplit rest (m + 1) (d - len) := by
        simp [monthSplit, hle]
      have hd2 : d - len < rest.sum := by
        simp [List.sum_cons] at hd; omega
      obtain ⟨a, b, c, e⟩ := ih (m + 1) (d - len) hd2
      rw [step]
      have hk : (monthSplit rest (m + 1) (d - len)).1 - m
          = ((monthSplit rest (m + 1) (d - len)).1 - (m + 1)) + 1 := by omega
      rw [hk]
      refine ⟨by simpa using a, by omega, ?_, ?_⟩
      · rw [List.take_succ_cons, List.sum_cons]
        omega
      · simpa using e
    · have step : monthSplit (len :: rest) m d = (m, d) := by
        simp [monthSplit, hle]
      rw [step]
      refine ⟨by simp, Nat.le_refl m, by simp, ?_⟩
      simp
      omega


theorem monthLengths_sum (y : Nat) : (monthLengths y).sum = daysInYear y := by
  cases h : isLeap y <;> simp [monthLengths, daysInYear, h]

theorem monthLengths_le_31 (y : Nat) : ∀ x ∈ monthLengths y, x ≤ 31 := by
  cases h : isLeap y <;> simp [monthLengths, h] <;> omega

theorem monthLengths_length (y : Nat) : (monthLengths y).length = 12 := by
  cases h : isLeap y <;> simp [monthLengths, h]

theorem daysToYear_1970 : daysToYear 1970 = 0 := by decide

theorem daysToYear_10000 : daysToYear 10000 = 2932897 := by decide

theorem daysToYear_mono (a b : Nat) (h1970 : 1970 ≤ a) (h : a ≤ b) :
    daysToYear a ≤ daysToYear b := by
  induction b with
  | zero => omega
  | succ b ih =>
    rcases Nat.lt_or_ge a (b + 1) with h2 | h2
    · have hb : 1970 ≤ b := by omega
      have hab := ih (by omega)
      rw [daysToYear_succ b hb]
      omega
    · have hab : a = b + 1 := by omega
      rw [hab]

theorem civilFromDays_inv (z : Nat) (hz : z ≤ 2932896) :
    daysFromCivil (civilFromDays z).1 (civilFromDays z).2.1 (civilFromDays z).2.2 = z ∧
    1970 ≤ (civilFromDays z).1 ∧ (civilFromDays z).1 ≤ 9999 ∧
    1 ≤ (civilFromDays z).2.1 ∧ (civilFromDays z).2.1 ≤ 12 ∧
    1 ≤ (civilFromDays z).2.2 ∧ (civilFromDays z).2.2 ≤ 31 := by
  obtain ⟨ha, hb, hc, hd⟩ := yearSplit_spec (z + 1) 1970 z (by omega) (by omega)
  have hdoy : (yearSplit (z + 1) 1970 z).2 < (monthLengths (yearSplit (z + 1) 1970 z).1).sum := by
    rw [monthLengths_sum]; exact hb
  obtain ⟨ma, mb, mc, md⟩ :=
    monthSplit_spec (monthLengths (yearSplit (z + 1) 1970 z).1) 1
      (yearSplit (z + 1) 1970 z).2 hdoy
  have hcv : civilFromDays z
      = ((yearSplit (z + 1) 1970 z).1,
         (monthSplit (monthLengths (yearSplit (z + 1) 1970 z).1) 1
            (yearSplit (z + 1) 1970 z).2).1,
         (monthSplit (monthLengths (yearSplit (z + 1) 1970 z).1) 1
            (yearSplit (z + 1) 1970 z).2).2 + 1) := rfl
  rw [hcv]
  have hlen := monthLengths_length (yearSplit (z + 1) 1970 z).1
  have hy9999 : (yearSplit (z + 1) 1970 z).1 ≤ 9999 := by
    by_contra hgt
    have h10000 : 10000 ≤ (yearSplit (z + 1) 1970 z).1 := by omega
    have hmono : daysToYear 10000 ≤ daysToYear (yearSplit (z + 1) 1970 z).1 :=
      daysToYear_mono _ _ (by omega) (by omega)
    rw [daysToYear_10000] at hmono
    have h0 : daysToYear 1970 = 0 := daysToYear_1970
    omega
  have hd31 : (monthSplit (monthLengths (yearSplit (z + 1) 1970 z).1) 1
      (yearSplit (z + 1) 1970 z).2).2 < 31 := by
    have hmem : (monthLengths (yearSplit (z + 1) 1970 z).1).getD
        ((monthSplit (monthLengths (yearSplit (z + 1) 1970 z).1) 1
          (yearSplit (z + 1) 1970 z).2).1 - 1) 0
        ∈ monthLengths (yearSplit (z + 1) 1970 z).1 := by
      have hlt : (monthSplit (monthLengths (yearSplit (z + 1) 1970 z).1) 1
          (yearSplit (z + 1) 1970 z).2).1 - 1
          < (monthLengths (yearSplit (z + 1) 1970 z).1).length := ma
      rw [List.getD_eq_getElem _ _ hlt]
      exact List.getElem_mem hlt
    have := monthLengths_le_31 _ _ hmem
    omega
  refine ⟨?_, ?_, ?_, ?_, ?_, ?_, ?_⟩
  · show daysFromCivil (yearSplit (z + 1) 1970 z).1
        (monthSplit (monthLengths (yearSplit (z + 1) 1970 z).1) 1
          (yearSplit (z + 1) 1970 z).2).1
        ((monthSplit (monthLengths (yearSplit (z + 1) 1970 z).1) 1
          (yearSplit (z + 1) 1970 z).2).2 + 1) = z
    unfold daysFromCivil
    simp only [Nat.add_sub_cancel]
    have h0 : daysToYear 1970 = 0 := daysToYear_1970
    omega
  · exact hc
  · exact hy9999
  · show 1 ≤ (monthSplit (monthLengths (yearSplit (z + 1) 1970 z).1) 1
        (yearSplit (z + 1) 1970 z).2).1
    omega
  · show (monthSplit (monthLengths (yearSplit (z + 1) 1970 z).1) 1
        (yearSplit (z + 1) 1970 z).2).1 ≤ 12
    omega
  · show 1 ≤ (monthSplit (monthLengths (yearSplit (z + 1) 1970 z).1) 1
        (yearSplit (z + 1) 1970 z).2).2 + 1
    omega
  · show (monthSplit (monthLengths (yearSplit (z + 1) 1970 z).1) 1
        (yearSplit (z + 1) 1970 z).2).2 + 1 ≤ 31
    omega

end OrmDao

namespace OrmDao

/-! ### Date format/parse round trip -/

theorem isDigitChar_digitChar_mod (k : Nat) :
    isDigitChar (digitChar (k % 10)) = true := by
  have hk : k % 10 < 10 := Nat.mod_lt _ (by omega)
  set j := k % 10 with hj
  interval_cases j <;> decide

theorem digitVal_digitChar_mod (k : Nat) :
    digitVal (digitChar (k % 10)) = k % 10 := by
  have hk : k % 10 < 10 := Nat.mod_lt _ (by omega)
  set j := k % 10 with hj
  interval_cases j <;> decide

theorem jsDateParseChars_format (y mo d hh mi sec : Nat)
    (hy1 : 1970 ≤ y) (hy2 : y ≤ 9999) (hmo1 : 1 ≤ mo) (hmo2 : mo ≤ 12)
    (hd1 : 1 ≤ d) (hd2 : d ≤ 31) (hh2 : hh ≤ 23) (hmi2 : mi ≤ 59)
    (hs2 : sec ≤ 59) :
    jsDateParseChars (pad4 y ++ '-' :: pad2 mo ++ '-' :: pad2 d
        ++ ' ' :: pad2 hh ++ ':' :: pad2 mi ++ ':' :: pad2 sec)
      = some ((daysFromCivil y mo d * 86400 + hh * 3600 + mi * 60 + sec) * 1000) := by
  simp only [pad4, pad2, List.cons_append, List.nil_append]
  rw [jsDateParseChars]
  rw [if_pos ⟨isDigitChar_digitChar_mod _, isDigitChar_digitChar_mod _,
    isDigitChar_digitChar_mod _, isDigitChar_digitChar_mod _,
    isDigitChar_digitChar_mod _, isDigitChar_digitChar_mod _,
    isDigitChar_digitChar_mod _, isDigitChar_digitChar_mod _,
    isDigitChar_digitChar_mod _, isDigitChar_digitChar_mod _,
    isDigitChar_digitChar_mod _, isDigitChar_digitChar_mod _,
    isDigitChar_digitChar_mod _, isDigitChar_digitChar_mod _⟩]
  simp only [digitVal_digitChar_mod]
  have hyv : 1000 * (y / 1000 % 10) + 100 * (y / 100 % 10)
      + 10 * (y / 10 % 10) + y % 10 = y := by omega
  have hmov : 10 * (mo / 10 % 10) + mo % 10 = mo := by omega
  have hdv : 10 * (d / 10 % 10) + d % 10 = d := by omega
  have hhv : 10 * (hh / 10 % 10) + hh % 10 = hh := by omega
  have hmiv : 10 * (mi / 10 % 10) + mi % 10 = mi := by omega
  have hsv : 10 * (sec / 10 % 10) + sec % 10 = sec := by omega
  rw [hyv, hmov, hdv, hhv, hmiv, hsv]
  rw [if_pos ⟨hy1, hmo1, hmo2, hd1, hd2, hh2, hmi2, hs2⟩]

theorem jsDateParse_roundtrip (ms : Nat) (h : ms < 253402300800000) :
    jsDateParse (toISOStringSliced ms) = some (ms / 1000 * 1000) := by
  have hz : ms / 1000 / 86400 ≤ 2932896 := by omega
  obtain ⟨hrt, hy1, hy2, hm1, hm2, hd1, hd2⟩ := civilFromDays_inv (ms / 1000 / 86400) hz
  have hstep : jsDateParse (toISOStringSliced ms)
      = jsDateParseChars (pad4 (civilFromDays (ms / 1000 / 86400)).1
        ++ '-' :: pad2 (civilFromDays (ms / 1000 / 86400)).2.1
        ++ '-' :: pad2 (civilFromDays (ms / 1000 / 86400)).2.2
        ++ ' ' :: pad2 (ms / 1000 % 86400 / 3600)
        ++ ':' :: pad2 (ms / 1000 % 86400 % 3600 / 60)
        ++ ':' :: pad2 (ms / 1000 % 86400 % 60)) := rfl
  rw [hstep]
  rw [jsDateParseChars_format _ _ _ _ _ _ hy1 hy2 hm1 hm2 hd1 hd2
    (by omega) (by omega) (by omega)]
  rw [hrt]
  simp only [Option.some.injEq]
  omega

end OrmDao

namespace OrmDao

/-! ### JSON parser correctness on printed output -/

theorem parseStrBody_cons (c : Char) (t : List Char) (h1 : ¬ c = '"')
    (h2 : ¬ c = '\\') :
    parseStrBody (c :: t)
      = (parseStrBody t).map (fun r => (⟨c :: r.1.data⟩, r.2)) := by
  rw [parseStrBody.eq_def]
  split
  · rename_i heq; cases heq
  · rename_i heq; cases heq; exact absurd rfl h2
  · rename_i heq; cases heq; exact absurd rfl h1
  · rename_i h3 h4 heq; cases heq; rfl

theorem parseStrBody_escape (cs : List Char) :
    ∀ (rest : List Char),
      parseStrBody (escapeChars cs ++ '"' :: rest) = some (⟨cs⟩, rest) := by
  induction cs with
  | nil => intro rest; rfl
  | cons c cs ih =>
    intro rest
    show parseStrBody ((escChar c ++ escapeChars cs) ++ '"' :: rest) = _
    by_cases h1 : c = '"'
    · subst h1
      show parseStrBody ('\\' :: '"' :: (escapeChars cs ++ '"' :: rest)) = _
      rw [show parseStrBody ('\\' :: '"' :: (escapeChars cs ++ '"' :: rest))
          = (parseStrBody (escapeChars cs ++ '"' :: rest)).map
              (fun r => (⟨'"' :: r.1.data⟩, r.2)) from rfl, ih]
      rfl
    · by_cases h2 : c = '\\'
      · subst h2
        show parseStrBody ('\\' :: '\\' :: (escapeChars cs ++ '"' :: rest)) = _
        rw [show parseStrBody ('\\' :: '\\' :: (escapeChars cs ++ '"' :: rest))
            = (parseStrBody (escapeChars cs ++ '"' :: rest)).map
                (fun r => (⟨'\\' :: r.1.data⟩, r.2)) from rfl, ih]
        rfl
      · have he : escChar c = [c] := by simp [escChar, h1, h2]
        rw [he]
        show parseStrBody (c :: (escapeChars cs ++ '"' :: rest)) = _
        rw [parseStrBody_cons c _ h1 h2, ih]
        rfl

theorem readDigits_stop (rest : List Char) (acc : Nat)
    (h : ∀ c, rest.head? = some c → isDigitChar c = false) :
    readDigits rest acc = (acc, rest) := by
  cases rest with
  | nil => rfl
  | cons c cs =>
    have hc : isDigitChar c = false := h c rfl
    simp [readDigits, hc]

theorem digitChar_isDigit (n : Nat) (h : n < 10) :
    isDigitChar (digitChar n) = true := by
  interval_cases n <;> decide

theorem digitChar_val (n : Nat) (h : n < 10) : digitVal (digitChar n) = n := by
  interval_cases n <;> decide

theorem readDigits_natDigitsFuel (fuel : Nat) :
    ∀ (n acc : Nat) (rest : List Char), n ≤ fuel →
      readDigits (natDigitsFuel fuel n ++ rest) acc
        = readDigits rest (acc * 10 ^ (natDigitsFuel fuel n).length + n) := by
  induction fuel with
  | zero =>
    intro n acc rest hn
    have h0 : n = 0 := by omega
    subst h0
    show readDigits (digitChar 0 :: rest) acc = _
    rw [readDigits, if_pos (digitChar_isDigit 0 (by omega)),
      digitChar_val 0 (by omega)]
    simp [natDigitsFuel, Nat.mul_comm]
  | succ fuel ih =>
    intro n acc rest hn
    by_cases hlt : n < 10
    · have hd : natDigitsFuel (fuel + 1) n = [digitChar n] := by
        simp [natDigitsFuel, hlt]
      rw [hd]
      show readDigits (digitChar n :: rest) acc = _
      rw [readDigits, if_pos (digitChar_isDigit n hlt), digitChar_val n hlt]
      simp [Nat.mul_comm]
    · have hd : natDigitsFuel (fuel + 1) n
          = natDigitsFuel fuel (n / 10) ++ [digitChar (n % 10)] := by
        simp [natDigitsFuel, hlt]
      rw [hd, List.append_assoc, List.cons_append, List.nil_append,
        ih (n / 10) acc _ (by omega)]
      rw [readDigits, if_pos (digitChar_isDigit _ (by omega)),
        digitChar_val _ (by omega)]
      rw [List.length_append, List.length_cons, List.length_nil]
      have hpow : 10 ^ ((natDigitsFuel fuel (n / 10)).length + (0 + 1))
          = 10 ^ (natDigitsFuel fuel (n / 10)).length * 10 := by
        rw [Nat.zero_add, Nat.pow_succ]
      rw [hpow]
      congr 1
      have h10 : 10 * (n / 10) + n % 10 = n := by omega
      ring_nf
      omega

theorem natDigitsFuel_ne_nil (fuel n : Nat) : natDigitsFuel fuel n ≠ [] := by
  cases fuel with
  | zero => simp [natDigitsFuel]
  | succ fuel =>
    by_cases hlt : n < 10 <;> simp [natDigitsFuel, hlt]

theorem natDigitsFuel_digits (fuel : Nat) :
    ∀ n c, c ∈ natDigitsFuel fuel n → isDigitChar c = true := by
  induction fuel with
  | zero =>
    intro n c hc
    simp [natDigitsFuel] at hc
    rw [hc]
    exact digitChar_isDigit _ (by omega)
  | succ fuel ih =>
    intro n c hc
    by_cases hlt : n < 10
    · simp [natDigitsFuel, hlt] at hc
      rw [hc]
      exact digitChar_isDigit _ hlt
    · simp [natDigitsFuel, hlt] at hc
      rcases hc with hc | hc
      · exact ih _ _ hc
      · rw [hc]
        exact digitChar_isDigit _ (by omega)

theorem readDigits_natDigits (n : Nat) (rest : List Char)
    (h : ∀ c, rest.head? = some c → isDigitChar c = false) :
    readDigits (natDigits n ++ rest) 0 = (n, rest) := by
  rw [natDigits, readDigits_natDigitsFuel n n 0 rest (Nat.le_refl n),
    readDigits_stop rest _ h]
  simp

end OrmDao

namespace OrmDao

theorem isDigit_ne_reserved (c : Char) (h : isDigitChar c = true) :
    ¬ c = 'n' ∧ ¬ c = 't' ∧ ¬ c = 'f' ∧ ¬ c = '"' ∧ ¬ c = '[' ∧
    ¬ c = '\x7b' ∧ ¬ c = '-' ∧ ¬ c = ']' ∧ ¬ c = '\x7d' := by
  refine ⟨?_, ?_, ?_, ?_, ?_, ?_, ?_, ?_, ?_⟩ <;>
    (intro heq; rw [heq] at h; exact absurd h (by decide))

theorem printJson_head (v : JSVal) :
    ∃ c t, printJson v = c :: t ∧ ¬ c = ']' ∧ ¬ c = '\x7d' := by
  cases v with
  | null => exact ⟨'n', _, rfl, by decide, by decide⟩
  | undef => exact ⟨'n', _, rfl, by decide, by decide⟩
  | bool b =>
    cases b with
    | false => exact ⟨'f', _, rfl, by decide, by decide⟩
    | true => exact ⟨'t', _, rfl, by decide, by decide⟩
  | num n =>
    by_cases hneg : n < 0
    · refine ⟨'-', natDigits (-n).toNat, ?_, by decide, by decide⟩
      simp [printJson, intPrint, hneg]
    · cases hnat : natDigits n.toNat with
      | nil => exact absurd hnat (natDigitsFuel_ne_nil _ _)
      | cons c t =>
        have hdig : isDigitChar c = true :=
          natDigitsFuel_digits _ _ c (by rw [natDigits] at hnat; rw [hnat]; simp)
        obtain ⟨_, _, _, _, _, _, _, h8, h9⟩ := isDigit_ne_reserved c hdig
        refine ⟨c, t, ?_, h8, h9⟩
        simp [printJson, intPrint, hneg, hnat]
  | str s => exact ⟨'"', _, rfl, by decide, by decide⟩
  | jdate ms => exact ⟨'"', _, rfl, by decide, by decide⟩
  | buf bytes => exact ⟨'\x7b', _, rfl, by decide, by decide⟩
  | arr es => exact ⟨'[', _, rfl, by decide, by decide⟩
  | obj fs => exact ⟨'\x7b', _, rfl, by decide, by decide⟩

theorem printElemsCore_cons_head (v : JSVal) (vs : List JSVal) :
    ∃ c t, printElemsCore (v :: vs) = c :: t ∧ ¬ c = ']' ∧ ¬ c = '\x7d' := by
  obtain ⟨c, t, hp, h1, h2⟩ := printJson_head v
  cases vs with
  | nil => exact ⟨c, t, by simp [printElemsCore, hp], h1, h2⟩
  | cons v2 vs2 =>
    exact ⟨c, t ++ ',' :: printElemsCore (v2 :: vs2),
      by simp [printElemsCore, hp], h1, h2⟩

theorem printFieldsCore_cons_head (kv : String × JSVal)
    (kvs : List (String × JSVal)) :
    ∃ t, printFieldsCore (kv :: kvs) = '"' :: t := by
  cases kvs with
  | nil =>
    exact ⟨escapeStr kv.1 ++ '"' :: ':' :: printJson kv.2,
      by simp [printFieldsCore, printField1]⟩
  | cons kv2 kvs2 =>
    exact ⟨(escapeStr kv.1 ++ '"' :: ':' :: printJson kv.2)
      ++ ',' :: printFieldsCore (kv2 :: kvs2),
      by simp [printFieldsCore, printField1]⟩

theorem parseArrBodyWith_default
    (pe : List Char → Option (List JSVal × List Char)) (c : Char)
    (t : List Char) (h : ¬ c = ']') :
    parseArrBodyWith pe (c :: t)
      = (pe (c :: t)).map (fun r => (.arr r.1, r.2)) := by
  rw [parseArrBodyWith.eq_def]
  split
  · rename_i heq; cases heq; exact absurd rfl h
  · rfl

theorem parseObjBodyWith_default
    (pf : List Char → Option (List (String × JSVal) × List Char)) (c : Char)
    (t : List Char) (h : ¬ c = '\x7d') :
    parseObjBodyWith pf (c :: t)
      = (pf (c :: t)).map (fun r => (.obj r.1, r.2)) := by
  rw [parseObjBodyWith.eq_def]
  split
  · rename_i heq; cases heq; exact absurd rfl h
  · rfl

theorem parseFuelNeed_pos (v : JSVal) : 1 ≤ parseFuelNeed v := by
  cases v <;> simp [parseFuelNeed]

end OrmDao

namespace OrmDao

theorem parse_print_all (fuel : Nat) :
    (∀ v rest, jsonSafeB v = true → parseFuelNeed v ≤ fuel →
      (∀ c, rest.head? = some c → isDigitChar c = false) →
      parseVal fuel (printJson v ++ rest) = some (v, rest)) ∧
    (∀ es rest, es ≠ [] → jsonSafeList es = true → parseFuelNeedList es ≤ fuel →
      parseElems fuel (printElemsCore es ++ ']' :: rest) = some (es, rest)) ∧
    (∀ fs rest, fs ≠ [] → jsonSafeFields fs = true →
      parseFuelNeedFields fs ≤ fuel →
      parseFields fuel (printFieldsCore fs ++ '\x7d' :: rest) = some (fs, rest)) := by
  induction fuel using Nat.strong_induction_on with
  | _ fuel ih =>
  cases fuel with
  | zero =>
    refine ⟨?_, ?_, ?_⟩
    · intro v rest hsafe hfuel hrest
      have := parseFuelNeed_pos v
      omega
    · intro es rest hne hsafe hfuel
      cases es with
      | nil => exact absurd rfl hne
      | cons v vs => simp [parseFuelNeedList] at hfuel
    · intro fs rest hne hsafe hfuel
      cases fs with
      | nil => exact absurd rfl hne
      | cons kv kvs => simp [parseFuelNeedFields] at hfuel
  | succ f =>
    obtain ⟨ihV, ihE, ihF⟩ := ih f (by omega)
    refine ⟨?_, ?_, ?_⟩
    · intro v rest hsafe hfuel hrest
      cases v with
      | null =>
        show parseVal (f + 1) ('n' :: 'u' :: 'l' :: 'l' :: rest) = _
        simp [parseVal]
      | undef => simp [jsonSafeB] at hsafe
      | bool b =>
        cases b with
        | true =>
          show parseVal (f + 1) ('t' :: 'r' :: 'u' :: 'e' :: rest) = _
          simp [parseVal]
        | false =>
          show parseVal (f + 1) ('f' :: 'a' :: 'l' :: 's' :: 'e' :: rest) = _
          simp [parseVal]
      | str s =>
        show parseVal (f + 1)
            ('"' :: ((escapeChars s.data ++ ['"']) ++ rest)) = _
        rw [List.append_assoc, List.cons_append, List.nil_append]
        have hbody := parseStrBody_escape s.data rest
        simp [parseVal, hbody]
      | jdate ms => simp [jsonSafeB] at hsafe
      | buf bytes => simp [jsonSafeB] at hsafe
      | num n =>
        show parseVal (f + 1) (intPrint n ++ rest) = _
        by_cases hneg : n < 0
        · have hi : intPrint n = '-' :: natDigits (-n).toNat := by
            simp [intPrint, hneg]
          cases hnat : natDigits (-n).toNat with
          | nil => exact absurd hnat (natDigitsFuel_ne_nil _ _)
          | cons c2 t2 =>
            have hdig : isDigitChar c2 = true :=
              natDigitsFuel_digits _ _ c2 (by rw [natDigits] at hnat; rw [hnat]; simp)
            have hrd : readDigits (natDigits (-n).toNat ++ rest) 0
                = ((-n).toNat, rest) := readDigits_natDigits _ rest hrest
            rw [hnat] at hrd
            rw [hi, List.cons_append, hnat, List.cons_append]
            simp [parseVal, hdig]
            rw [show c2 :: (t2 ++ rest) = (c2 :: t2) ++ rest from rfl, hrd]
            simp only [Option.some.injEq, Prod.mk.injEq, JSVal.num.injEq]
            exact ⟨by omega, trivial⟩
        · have hi : intPrint n = natDigits n.toNat := by
            simp [intPrint, hneg]
          cases hnat : natDigits n.toNat with
          | nil => exact absurd hnat (natDigitsFuel_ne_nil _ _)
          | cons c2 t2 =>
            have hdig : isDigitChar c2 = true :=
              natDigitsFuel_digits _ _ c2 (by rw [natDigits] at hnat; rw [hnat]; simp)
            obtain ⟨g1, g2, g3, g4, g5, g6, g7, g8, g9⟩ :=
              isDigit_ne_reserved c2 hdig
            have hrd : readDigits (natDigits n.toNat ++ rest) 0
                = (n.toNat, rest) := readDigits_natDigits _ rest hrest
            rw [hnat] at hrd
            rw [hi, hnat, List.cons_append]
            simp [parseVal, hdig, g1, g2, g3, g4, g5, g6, g7]
            rw [show c2 :: (t2 ++ rest) = (c2 :: t2) ++ rest from rfl, hrd]
            simp only [Option.some.injEq, Prod.mk.injEq, JSVal.num.injEq]
            exact ⟨by omega, trivial⟩
      | arr es =>
        have harr : printJson (.arr es) ++ rest
            = '[' :: (printElemsCore es ++ ']' :: rest) := by
          simp [printJson]
        rw [harr]
        cases es with
        | nil =>
          show parseVal (f + 1) ('[' :: ']' :: rest) = _
          simp [parseVal, parseArrBodyWith]
        | cons v vs =>
          have hsafeL : jsonSafeList (v :: vs) = true := by
            simpa [jsonSafeB] using hsafe
          have hfuelL : parseFuelNeedList (v :: vs) ≤ f := by
            simp only [parseFuelNeed] at hfuel; omega
          obtain ⟨c0, t0, hpc, hc1, hc2⟩ := printElemsCore_cons_head v vs
          have he := ihE (v :: vs) rest (by simp) hsafeL hfuelL
          simp only [parseVal, if_neg (by decide : ¬ ('[' : Char) = 'n'),
            if_neg (by decide : ¬ ('[' : Char) = 't'),
            if_neg (by decide : ¬ ('[' : Char) = 'f'),
            if_neg (by decide : ¬ ('[' : Char) = '"'),
            if_pos (rfl : ('[' : Char) = '[')]
          rw [hpc, List.cons_append, parseArrBodyWith_default _ _ _ hc1,
            ← List.cons_append, ← hpc, he]
          rfl
      | obj fs =>
        have hobj : printJson (.obj fs) ++ rest
            = '{' :: (printFieldsCore fs ++ '}' :: rest) := by
          simp [printJson]
        rw [hobj]
        cases fs with
        | nil =>
          show parseVal (f + 1) ('{' :: '}' :: rest) = _
          simp [parseVal, parseObjBodyWith]
        | cons kv kvs =>
          have hsafeF : jsonSafeFields (kv :: kvs) = true := by
            simpa [jsonSafeB] using hsafe
          have hfuelF : parseFuelNeedFields (kv :: kvs) ≤ f := by
            simp only [parseFuelNeed] at hfuel; omega
          obtain ⟨t0, hpc⟩ := printFieldsCore_cons_head kv kvs
          have hf := ihF (kv :: kvs) rest (by simp) hsafeF hfuelF
          simp only [parseVal, if_neg (by decide : ¬ ('{' : Char) = 'n'),
            if_neg (by decide : ¬ ('{' : Char) = 't'),
            if_neg (by decide : ¬ ('{' : Char) = 'f'),
            if_neg (by decide : ¬ ('{' : Char) = '"'),
            if_neg (by decide : ¬ ('{' : Char) = '['),
            if_pos (rfl : ('{' : Char) = '{')]
          rw [hpc, List.cons_append, parseObjBodyWith_default _ _ _ (by decide),
            ← List.cons_append, ← hpc, hf]
          rfl
    · intro es rest hne hsafe hfuel
      cases es with
      | nil => exact absurd rfl hne
      | cons v vs =>
        have hs : jsonSafeB v = true ∧ jsonSafeList vs = true := by
          simpa [jsonSafeList, Bool.and_eq_true] using hsafe
        cases vs with
        | nil =>
          have hv := ihV v (']' :: rest) hs.1
            (by simp [parseFuelNeedList] at hfuel; omega)
            (by intro c hc; simp at hc; rw [← hc]; decide)
          show parseElems (f + 1) (printJson v ++ ']' :: rest)
              = some ([v], rest)
          simp [parseElems, hv]
        | cons v2 vs2 =>
          have hfv : parseFuelNeed v ≤ f := by
            simp [parseFuelNeedList] at hfuel; omega
          have hfe : parseFuelNeedList (v2 :: vs2) ≤ f := by
            simp [parseFuelNeedList] at hfuel
            simp [parseFuelNeedList]
            omega
          have hv := ihV v (',' :: (printElemsCore (v2 :: vs2) ++ ']' :: rest))
            hs.1 hfv (by intro c hc; simp at hc; rw [← hc]; decide)
          have he := ihE (v2 :: vs2) rest (by simp) hs.2 hfe
          show parseElems (f + 1)
              ((printJson v ++ ',' :: printElemsCore (v2 :: vs2)) ++ ']' :: rest)
              = some (v :: v2 :: vs2, rest)
          rw [List.append_assoc, List.cons_append]
          simp [parseElems, hv, he]
    · intro fs rest hne hsafe hfuel
      cases fs with
      | nil => exact absurd rfl hne
      | cons kv kvs =>
        have hs : strSafeB kv.1 = true ∧ jsonSafeB kv.2 = true ∧
            jsonSafeFields kvs = true := by
          simpa [jsonSafeFields, Bool.and_eq_true, and_assoc] using hsafe
        cases kvs with
        | nil =>
          have hfv : parseFuelNeed kv.2 ≤ f := by
            simp [parseFuelNeedFields] at hfuel; omega
          have hv := ihV kv.2 ('\x7d' :: rest) hs.2.1 hfv
            (by intro c hc; simp at hc; rw [← hc]; decide)
          have hsb := parseStrBody_escape kv.1.data
            (':' :: (printJson kv.2 ++ '\x7d' :: rest))
          show parseFields (f + 1)
              (printFieldsCore [kv] ++ '\x7d' :: rest) = some ([kv], rest)
          have hshape : printFieldsCore [kv] ++ '\x7d' :: rest
              = '"' :: (escapeChars kv.1.data
                  ++ '"' :: ':' :: (printJson kv.2 ++ '\x7d' :: rest)) := by
            simp [printFieldsCore, printField1, escapeStr]
          rw [hshape]
          simp [parseFields, hsb, hv]
        | cons kv2 kvs2 =>
          have hfv : parseFuelNeed kv.2 ≤ f := by
            simp [parseFuelNeedFields] at hfuel; omega
          have hff : parseFuelNeedFields (kv2 :: kvs2) ≤ f := by
            simp [parseFuelNeedFields] at hfuel
            simp [parseFuelNeedFields]
            omega
          have hv := ihV kv.2
            (',' :: (printFieldsCore (kv2 :: kvs2) ++ '\x7d' :: rest))
            hs.2.1 hfv (by intro c hc; simp at hc; rw [← hc]; decide)
          have hf := ihF (kv2 :: kvs2) rest (by simp) hs.2.2 hff
          have hsb := parseStrBody_escape kv.1.data
            (':' :: (printJson kv.2
              ++ ',' :: (printFieldsCore (kv2 :: kvs2) ++ '\x7d' :: rest)))
          show parseFields (f + 1)
              ((printField1 kv ++ ',' :: printFieldsCore (kv2 :: kvs2))
                ++ '\x7d' :: rest) = some (kv :: kv2 :: kvs2, rest)
          have hshape : (printField1 kv ++ ',' :: printFieldsCore (kv2 :: kvs2))
                ++ '\x7d' :: rest
              = '"' :: (escapeChars kv.1.data
                  ++ '"' :: ':' :: (printJson kv.2
                    ++ ',' :: (printFieldsCore (kv2 :: kvs2)
                      ++ '\x7d' :: rest))) := by
            simp [printField1, escapeStr]
          rw [hshape]
          simp [parseFields, hsb, hv, hf]

end OrmDao

namespace OrmDao

theorem intPrint_length_pos (n : Int) : 1 ≤ (intPrint n).length := by
  unfold intPrint
  split
  · simp
  · have := natDigitsFuel_ne_nil n.toNat n.toNat
    rw [natDigits]
    cases h : natDigitsFuel n.toNat n.toNat with
    | nil => exact absurd h this
    | cons a b => simp

theorem fuelNeed_le (v : JSVal) :
    parseFuelNeed v + 1 ≤ 2 * (printJson v).length := by
  refine parseFuelNeed.induct
    (fun v => parseFuelNeed v + 1 ≤ 2 * (printJson v).length)
    (fun fs => parseFuelNeedFields fs ≤ 2 * (printFieldsCore fs).length + 1)
    (fun es => parseFuelNeedList es ≤ 2 * (printElemsCore es).length + 1)
    ?_ ?_ ?_ ?_ ?_ ?_ ?_ ?_ ?_ ?_ ?_ ?_ ?_ v
  · simp [parseFuelNeed, printJson]
  · simp [parseFuelNeed, printJson]
  · intro b
    cases b <;> simp [parseFuelNeed, printJson]
  · intro n
    have := intPrint_length_pos n
    simp only [parseFuelNeed, printJson]
    omega
  · intro s
    simp [parseFuelNeed, printJson]
  · intro ms
    simp [parseFuelNeed, printJson]
  · intro bytes
    simp [parseFuelNeed, printJson, bufJson]
  · intro es ihe
    simp only [parseFuelNeed, printJson, List.length_cons, List.length_append]
    simp at ihe ⊢
    omega
  · intro fs ihf
    simp only [parseFuelNeed, printJson, List.length_cons, List.length_append]
    simp at ihf ⊢
    omega
  · simp [parseFuelNeedList, printElemsCore]
  · intro v vs ihv ihvs
    cases vs with
    | nil =>
      simp only [parseFuelNeedList, printElemsCore]
      omega
    | cons v2 vs2 =>
      simp only [parseFuelNeedList, printElemsCore, List.length_append,
        List.length_cons] at ihvs ⊢
      omega
  · simp [parseFuelNeedFields, printFieldsCore]
  · intro kv kvs ihv ihkvs
    cases kvs with
    | nil =>
      have hlen : (printFieldsCore [kv]).length
          = 1 + (escapeStr kv.1).length + 2 + (printJson kv.2).length := by
        simp [printFieldsCore, printField1]
        omega
      simp only [parseFuelNeedFields]
      rw [hlen]
      omega
    | cons kv2 kvs2 =>
      have hlen : (printFieldsCore (kv :: kv2 :: kvs2)).length
          = 1 + (escapeStr kv.1).length + 2 + (printJson kv.2).length
            + 1 + (printFieldsCore (kv2 :: kvs2)).length := by
        simp [printFieldsCore, printField1]
        omega
      simp only [parseFuelNeedFields] at ihkvs ⊢
      rw [hlen]
      omega


theorem jsonParse_stringify (v : JSVal) (h : jsonSafeB v = true) :
    jsonParse (jsonStringify v) = some v := by
  have hlen := fuelNeed_le v
  have hmain := (parse_print_all (2 * (printJson v).length + 2)).1 v []
    h (by omega) (by intro c hc; simp at hc)
  rw [List.append_nil] at hmain
  show (match parseVal (2 * (printJson v).length + 2) (printJson v) with
    | some (v, []) => some v
    | _ => none) = some v
  rw [hmain]

end OrmDao

namespace OrmDao

/-! ### Record lookup lemmas and the entity claims -/

theorem lookupField_cons (kv : String × JSVal) (l : Rec) (k : String) :
    lookupField (kv :: l) k
      = if kv.1 == k then some kv.2 else lookupField l k := by
  by_cases h : (kv.1 == k) = true <;> simp [lookupField, List.find?, h]

theorem lookupField_map (f : String → JSVal → JSVal) (l : Rec) (k : String) :
    lookupField (l.map (fun kv => (kv.1, f kv.1 kv.2))) k
      = (lookupField l k).map (f k) := by
  induction l with
  | nil => rfl
  | cons kv rest ih =>
    by_cases h : (kv.1 == k) = true
    · have hk : kv.1 = k := by simpa using h
      simp [List.map_cons, lookupField_cons, h, hk]
    · simp [List.map_cons, lookupField_cons, h, ih]

theorem lookupField_filter_other (l : Rec) (k : String) (h : ¬ k = "_joins") :
    lookupField (l.filter (fun kv => kv.1 != "_joins")) k = lookupField l k := by
  induction l with
  | nil => rfl
  | cons kv rest ih =>
    by_cases hj : kv.1 = "_joins"
    · have hne : (kv.1 == k) = false := by
        simp [hj]
        intro he
        exact absurd he.symm h
      simp [List.filter, hj, lookupField_cons, hne, ih]
      rw [if_neg (fun he => h he.symm)]
    · have hb : (kv.1 != "_joins") = true := by simp [hj]
      simp [List.filter, hb, lookupField_cons, ih]

theorem lookupField_filter_joins (l : Rec) :
    lookupField (l.filter (fun kv => kv.1 != "_joins")) "_joins" = none := by
  induction l with
  | nil => rfl
  | cons kv rest ih =>
    by_cases hj : kv.1 = "_joins"
    · simp [List.filter, hj, ih]
    · have hb : (kv.1 != "_joins") = true := by simp [hj]
      simp [List.filter, hb, lookupField_cons, hj, ih]

theorem lookupField_toDBRecord (reg : String → Option PropType) (e : Rec)
    (k : String) (hk : ¬ k = "_joins") :
    lookupField (toDBRecord reg e) k
      = (lookupField e k).map (serializeField reg k) := by
  rw [toDBRecord, lookupField_filter_other _ _ hk, lookupField_map]

theorem lookupField_init (reg : String → Option PropType) (r : Rec)
    (k : String) :
    lookupField (init reg r) k = (lookupField r k).map (hydrateField reg k) := by
  rw [init, lookupField_map]

/-- C7: round trip of the declared conversion kinds.  For every entity
field map `e` and field `k` (other than the stripped `_joins`): when `k`
is registered as JSON and holds a JSON-safe object or array,
`init (toDBRecord e)` returns the field unchanged; when `k` is registered
as DATE and holds a `Date` within the four-digit-year range,
`init (toDBRecord e)` returns the date truncated to whole seconds. -/
theorem hydrate_serialize_roundtrip (reg : String → Option PropType)
    (e : Rec) (k : String) (v : JSVal) (hk : ¬ k = "_joins")
    (hfind : lookupField e k = some v) :
    ((reg k = some .json) →
      ((∃ fs, v = .obj fs) ∨ (∃ es, v = .arr es)) → jsonSafeB v = true →
      lookupField (init reg (toDBRecord reg e)) k = some v) ∧
    ((reg k = some .date) → ∀ ms, v = .jdate ms → ms < 253402300800000 →
      lookupField (init reg (toDBRecord reg e)) k
        = some (.jdate (ms / 1000 * 1000))) := by
  have hbase : lookupField (init reg (toDBRecord reg e)) k
      = some (hydrateField reg k (serializeField reg k v)) := by
    rw [lookupField_init, lookupField_toDBRecord reg e k hk, hfind]
    rfl
  constructor
  · intro hreg hobj hsafe
    rw [hbase]
    have hser : serializeField reg k v = .str (jsonStringify v) := by
      rcases hobj with ⟨fs, hv⟩ | ⟨es, hv⟩ <;>
        (subst hv; simp [serializeField, hreg, isNonNullObject])
    rw [hser]
    have hhyd : hydrateField reg k (.str (jsonStringify v)) = v := by
      rw [hydrateField.eq_def]
      simp only [hreg]
      rw [jsonParse_stringify v hsafe]
      rcases hobj with ⟨fs, hv⟩ | ⟨es, hv⟩ <;>
        (subst hv; simp [isNonNullObject])
    rw [hhyd]
  · intro hreg ms hv hms
    subst hv
    rw [hbase]
    have hser : serializeField reg k (.jdate ms) = .str (toISOStringSliced ms) := by
      simp [serializeField, hreg]
    rw [hser]
    have hhyd : hydrateField reg k (.str (toISOStringSliced ms))
        = .jdate (ms / 1000 * 1000) := by
      rw [hydrateField.eq_def]
      simp only [hreg]
      rw [jsDateParse_roundtrip ms hms]
    rw [hhyd]

/-- C7 witness: a concrete entity with a JSON object field and a date
field round-trips as the theorem states. -/
theorem hydrate_serialize_roundtrip_witness :
    lookupField (init
        (fun k => if k = "j" then some .json else if k = "d" then some .date else none)
        (toDBRecord
          (fun k => if k = "j" then some .json else if k = "d" then some .date else none)
          [("id", .num 7), ("j", .obj [("a", .num 1)]),
           ("d", .jdate 1712345678901), ("_joins", .obj [])])) "j"
      = some (.obj [("a", .num 1)]) ∧
    lookupField (init
        (fun k => if k = "j" then some .json else if k = "d" then some .date else none)
        (toDBRecord
          (fun k => if k = "j" then some .json else if k = "d" then some .date else none)
          [("id", .num 7), ("j", .obj [("a", .num 1)]),
           ("d", .jdate 1712345678901), ("_joins", .obj [])])) "d"
      = some (.jdate 1712345678000) :=
  ⟨(hydrate_serialize_roundtrip
      (fun k => if k = "j" then some .json else if k = "d" then some .date else none)
      [("id", .num 7), ("j", .obj [("a", .num 1)]),
       ("d", .jdate 1712345678901), ("_joins", .obj [])]
      "j" (.obj [("a", .num 1)]) (by decide) rfl).1 rfl
      (.inl ⟨[("a", .num 1)], rfl⟩) rfl,
   by
    have h := (hydrate_serialize_roundtrip
      (fun k => if k = "j" then some .json else if k = "d" then some .date else none)
      [("id", .num 7), ("j", .obj [("a", .num 1)]),
       ("d", .jdate 1712345678901), ("_joins", .obj [])]
      "d" (.jdate 1712345678901) (by decide) rfl).2 rfl
      1712345678901 rfl (by decide)
    simpa using h⟩

/-- C9: entity construction runs the validation predicate on the
initialized fields; a string result raises an `EntityValidationError`
carrying exactly that string as its message (no entity is produced), and
the success sentinel yields the initialized entity. -/
theorem entityConstruct_validation (reg : String → Option PropType)
    (validate : Rec → ValidateResult) (attributes : Rec) :
    (∀ s, validate (init reg attributes) = .msg s →
      entityConstruct reg validate attributes
        = .error ⟨"EntityValidationError", s⟩) ∧
    (validate (init reg attributes) = .isTrue →
      entityConstruct reg validate attributes = .ok (init reg attributes)) := by
  constructor
  · intro s hs
    simp [entityConstruct, hs]
  · intro ht
    simp [entityConstruct, ht]

/-- C9 witness: a failing predicate with message "bad" raises the error
with exactly that message; the success sentinel yields the entity. -/
theorem entityConstruct_validation_witness :
    entityConstruct (fun _ => none) (fun _ => .msg "bad") [("id", .num 1)]
      = .error ⟨"EntityValidationError", "bad"⟩ ∧
    entityConstruct (fun _ => none) (fun _ => .isTrue) [("id", .num 1)]
      = .ok (init (fun _ => none) [("id", .num 1)]) :=
  ⟨(entityConstruct_validation _ _ _).1 "bad" rfl,
   (entityConstruct_validation _ _ _).2 rfl⟩

/-- C10: serialization is frame-preserving — `toDBRecord` performs all
coercions on the shallow copy at the fresh address, so the entity at
`self` (and every other live object, its joins map included) is unchanged
on the heap; only the fresh record differs, and `_joins` is removed from
that record alone. -/
theorem toDBRecordHeap_frame (reg : String → Option PropType) (h : Heap)
    (self fresh : Nat) (fields : Rec) (hself : h self = some fields)
    (hfresh : h fresh = none) :
    toDBRecordHeap reg h self fresh self = some fields ∧
    (∀ a, a ≠ fresh → toDBRecordHeap reg h self fresh a = h a) ∧
    toDBRecordHeap reg h self fresh fresh = some (toDBRecord reg fields) ∧
    lookupField (toDBRecord reg fields) "_joins" = none := by
  have hne : ¬ self = fresh := by
    intro he
    rw [he, hfresh] at hself
    cases hself
  refine ⟨?_, ?_, ?_, ?_⟩
  · simp [toDBRecordHeap, hself, hne]
  · intro a ha
    simp [toDBRecordHeap, hself, ha]
  · simp [toDBRecordHeap, hself]
  · exact lookupField_filter_joins _

/-- C10 witness: a two-object heap (entity with a joins map at address 0,
fresh record at address 1). -/
theorem toDBRecordHeap_frame_witness :
    toDBRecordHeap (fun _ => none)
        (fun a => if a = 0 then some [("id", .num 1), ("_joins", .obj [])] else none)
        0 1 0 = some [("id", .num 1), ("_joins", .obj [])] ∧
    lookupField (toDBRecord (fun _ => none)
        [("id", .num 1), ("_joins", .obj [])]) "_joins" = none :=
  ⟨(toDBRecordHeap_frame (fun _ => none) _ 0 1
      [("id", .num 1), ("_joins", .obj [])] rfl rfl).1,
   (toDBRecordHeap_frame (fun _ => none)
      (fun a => if a = 0 then some [("id", .num 1), ("_joins", .obj [])] else none)
      0 1 [("id", .num 1), ("_joins", .obj [])] rfl rfl).2.2.2⟩

end OrmDao
